import Mathlib

/-!
Verification of the k8syncer synchronization and persistence core against its
specification.

Go strings are modelled as `List Char`, Go maps as association lists, and the
outside world (Kubernetes API server, git remote) as explicit outcome scripts
threaded through the translated control flow.  Each definition is a direct
translation of the correspondingly named Go function.
-/

deriving instance DecidableEq for Except

namespace K8Syncer

/-- Go strings, modelled as lists of characters. -/
abbrev GoStr := List Char

/-- Go `strings.Split(s, sep)` for a one-character separator: the list of
maximal runs between occurrences of the separator (`n` separators yield
`n + 1` fields). -/
def goSplitChar (c : Char) : GoStr → List GoStr
  | [] => [[]]
  | x :: xs =>
    match goSplitChar c xs with
    | [] => [[]]
    | h :: t => if x = c then [] :: h :: t else (x :: h) :: t

/-- Go `strings.HasSuffix(s, t)` for a one-character suffix. -/
def hasSuffixChar (c : Char) (s : GoStr) : Bool :=
  s.getLast? = some c

/-- Go `strings.TrimRight(s, cutset)` for a one-character cutset: removes all
trailing occurrences of the character (not just one). -/
def trimRightChar (c : Char) (s : GoStr) : GoStr :=
  ((s.reverse).dropWhile (fun x => x = c)).reverse

/-- Helper for the `fields[len(fields)-1] = fields[len(fields)-1] + f` step of
`ParseSimpleJSONPath`: appends `f` to the last accumulated field. -/
def joinToLast : List GoStr → GoStr → List GoStr
  | [], f => [f]
  | [l], f => [l ++ f]
  | x :: y :: t, f => x :: joinToLast (y :: t) f

/-- Loop body of `ParseSimpleJSONPath` (pkg/utils/utils.go): walks the raw
fields produced by splitting on every dot; a raw field that is not last and
ends in a backslash has all its trailing backslashes trimmed and, when the
trimmed field no longer ends in a backslash, gets a literal dot appended and
is merged with the following raw field. -/
def psjLoop : List GoStr → Bool → List GoStr → List GoStr
  | [], _, fields => fields
  | f :: rest, add, fields =>
    let step : GoStr × Bool :=
      if rest ≠ [] ∧ hasSuffixChar '\\' f then
        let t := trimRightChar '\\' f
        if ¬ hasSuffixChar '\\' t then (t ++ ['.'], true) else (t, false)
      else (f, false)
    let fields' := if add then joinToLast fields step.1 else fields ++ [step.1]
    psjLoop rest step.2 fields'

/-- `ParseSimpleJSONPath` (pkg/utils/utils.go): splits a dot-separated path
into fields, honouring the backslash-escaping described in its doc comment. -/
def parseSimpleJSONPath (path : GoStr) : List GoStr :=
  if path = [] then []
  else psjLoop (goSplitChar '.' path) false []

/-- Go map lookup on an association list. -/
def mapLookup {α β : Type} [DecidableEq α] : List (α × β) → α → Option β
  | [], _ => none
  | (k, v) :: t, k' => if k = k' then some v else mapLookup t k'

/-- Go map assignment on an association list: replaces the first binding of
the key, or appends a new one. -/
def mapSet {α β : Type} [DecidableEq α] : List (α × β) → α → β → List (α × β)
  | [], k, v => [(k, v)]
  | (k0, v0) :: t, k, v => if k0 = k then (k, v) :: t else (k0, v0) :: mapSet t k v

/-! ## State codec (pkg/state)

`Phase` and `StateVerbosity` are Go string types; both are modelled as
`GoStr`.  `StateField` is the closed table of the three state fields with its
`get`/`set`/`serialize`/`hasCorrectType` closures, and `GoVal` models the
dynamic type of the Go `any` values flowing through that table, which is
exactly what `hasCorrectType`'s type assertions inspect. -/

/-- Verbosity constant `"undefined"`. -/
def svUndefined : GoStr := "undefined".toList

/-- Verbosity constant `"any"`. -/
def svAny : GoStr := "any".toList

/-- Verbosity constant `"generation"`. -/
def svGeneration : GoStr := "generation".toList

/-- Verbosity constant `"phase"`. -/
def svPhase : GoStr := "phase".toList

/-- Verbosity constant `"detail"`. -/
def svDetail : GoStr := "detail".toList

/-- Phase constant `"Progressing"`. -/
def pProgressing : GoStr := "Progressing".toList

/-- Phase constant `"Finished"`. -/
def pFinished : GoStr := "Finished".toList

/-- Phase constant `"Deleting"`. -/
def pDeleting : GoStr := "Deleting".toList

/-- SyncState (pkg/state/state.go): verbosity, phase, last synced generation
(int64), and detail.  The Go zero value has empty strings and generation 0. -/
structure SyncState where
  verbosity : GoStr
  phase : GoStr
  lastSyncedGeneration : Int
  detail : GoStr
deriving DecidableEq, Repr

/-- Go `any` values flowing through the state-field table, tagged with their
dynamic Go type (`int64`, `string`, or the named string type `Phase`). -/
inductive GoVal
  | vInt (i : Int)
  | vStr (s : GoStr)
  | vPhase (p : GoStr)
deriving DecidableEq, Repr

/-- Go `fmt.Sprint` on the values that reach it in the annotation display:
int64 prints in decimal, string types print their contents. -/
def goSprint : GoVal → GoStr
  | .vInt i => (toString i).toList
  | .vStr s => s
  | .vPhase p => p

/-- The closed set of state fields (`STATE_FIELD_LAST_SYNCED_GENERATION`,
`STATE_FIELD_PHASE`, `STATE_FIELD_DETAIL`). -/
inductive SField
  | generation
  | phase
  | detail
deriving DecidableEq, Repr

/-- The `ALL_STATE_FIELDS` list, in source order. -/
def allStateFields : List SField := [SField.generation, SField.phase, SField.detail]

/-- The `name` entry of each state field. -/
def sfName : SField → GoStr
  | .generation => "lastSyncedGeneration".toList
  | .phase => "phase".toList
  | .detail => "detail".toList

/-- The `includedIn` verbosity set of each state field. -/
def sfIncludedIn : SField → List GoStr
  | .generation => [svGeneration, svPhase, svDetail]
  | .phase => [svPhase, svDetail]
  | .detail => [svDetail]

/-- `StateVerbosity.Includes`: membership of the verbosity in the field's
`includedIn` set. -/
def svIncludes (v : GoStr) (f : SField) : Bool :=
  (sfIncludedIn f).contains v

/-- The `hasCorrectType` closure of each state field: a dynamic type test of
the Go `any` value (`int64` for the generation, the named type `Phase` for
the phase, `string` for the detail). -/
def sfHasCorrectType : SField → GoVal → Bool
  | .generation, .vInt _ => true
  | .generation, _ => false
  | .phase, .vPhase _ => true
  | .phase, _ => false
  | .detail, .vStr _ => true
  | .detail, _ => false

/-- The `get` closure of each state field. -/
def sfGet : SField → SyncState → GoVal
  | .generation, s => .vInt s.lastSyncedGeneration
  | .phase, s => .vPhase s.phase
  | .detail, s => .vStr s.detail

/-- The `set` closure of each state field.  In Go the closure type-asserts its
argument; it is only ever invoked behind `hasCorrectType`, so the fallthrough
cases (which would panic in Go) leave the state unchanged. -/
def sfSet : SField → SyncState → GoVal → SyncState
  | .generation, s, .vInt i => { s with lastSyncedGeneration := i }
  | .phase, s, .vPhase p => { s with phase := p }
  | .detail, s, .vStr d => { s with detail := d }
  | _, s, _ => s

/-- The `serialize` closure of each state field: identity for generation and
detail, `string(value.(Phase))` for the phase. -/
def sfSerialize : SField → GoVal → GoVal
  | .generation, v => v
  | .phase, .vPhase p => .vStr p
  | .phase, v => v
  | .detail, v => v

/-- Reasons of the `StateError` taxonomy (pkg/state/errors.go). -/
inductive StateErr
  | missingState
  | invalidState
  | internalErr
  | readFailed
  | writeFailed
deriving DecidableEq, Repr

/-- `SyncState.SetField` (pkg/state/state.go): rejects a value whose dynamic
type does not match the field with an `InvalidStateError`, otherwise sets it. -/
def SyncState.setField (s : SyncState) (f : SField) (v : GoVal) : Except StateErr SyncState :=
  if sfHasCorrectType f v then .ok (sfSet f s v) else .error .invalidState

/-- The annotation key of each state field (`fieldAnnotations` map built in
`NewAnnotationStateDisplay`, keys from pkg/utils/constants). -/
def fieldAnn : SField → GoStr
  | .generation => "state.k8syncer.gardener.cloud/lastSyncedGeneration".toList
  | .phase => "state.k8syncer.gardener.cloud/phase".toList
  | .detail => "state.k8syncer.gardener.cloud/detail".toList

/-- The slice of a Kubernetes object the annotation state display touches:
its annotations map, which may be nil. -/
structure AnnObj where
  annotations : Option (List (GoStr × GoStr))
deriving DecidableEq, Repr

/-- The string `"metadata"`. -/
def metadataStr : GoStr := "metadata".toList

/-- The string `"status"`. -/
def statusStr : GoStr := "status".toList

/-- Loop of `AnnotationStateDisplay.Read`: for each state field included in
the display's verbosity, look the annotation up (absence is a
`MissingStateError`) and `SetField` the raw annotation string into the
state. -/
def annReadLoop (v : GoStr) (ann : List (GoStr × GoStr)) :
    List SField → SyncState → Except StateErr SyncState
  | [], s => .ok s
  | f :: rest, s =>
    if ¬ svIncludes v f then annReadLoop v ann rest s
    else
      match mapLookup ann (fieldAnn f) with
      | none => .error .missingState
      | some value =>
        match s.setField f (.vStr value) with
        | .error e => .error e
        | .ok s' => annReadLoop v ann rest s'

/-- `AnnotationStateDisplay.Read`: guards the display verbosity, treats nil
annotations as missing state, then runs the field loop on a zero
`SyncState`. -/
def annRead (v : GoStr) (obj : AnnObj) : Except StateErr SyncState :=
  if v = svUndefined ∨ v = [] then .error .internalErr
  else
    match obj.annotations with
    | none => .error .missingState
    | some ann => annReadLoop v ann allStateFields ⟨[], [], 0, []⟩

/-- Loop body of `AnnotationStateDisplay.Write` over one field: skips fields
outside the state's verbosity, skips a field whose serialized value equals
the stored one, and marks the write as changed only when a stored value was
found and differs. -/
def annWriteStep (state : SyncState) (acc : List (GoStr × GoStr) × Bool) (f : SField) :
    List (GoStr × GoStr) × Bool :=
  if ¬ svIncludes state.verbosity f then acc
  else
    let newValue := goSprint (sfSerialize f (sfGet f state))
    match mapLookup acc.1 (fieldAnn f) with
    | some oldValue =>
      if newValue = oldValue then acc
      else (mapSet acc.1 (fieldAnn f) newValue, true)
    | none => (mapSet acc.1 (fieldAnn f) newValue, acc.2)

/-- `AnnotationStateDisplay.Write`: guards the state's verbosity, folds the
per-field step over the requested fields starting from the object's
annotations (nil becomes an empty map), stores the result on the object, and
reports `{"metadata"}` when the changed flag was set and the empty section
set otherwise. -/
def annWrite (obj : AnnObj) (state : SyncState) (fields : List SField) :
    Except StateErr (List GoStr × AnnObj) :=
  if state.verbosity = svUndefined ∨ state.verbosity = svAny ∨ state.verbosity = [] then
    .error .internalErr
  else
    let r := fields.foldl (annWriteStep state) (obj.annotations.getD [], false)
    .ok (if r.2 then [metadataStr] else [], ⟨some r.1⟩)

/-! ## Optimistic-retry update (pkg/controller, `updateWithRetry`)

The Kubernetes client is modelled as the current cluster copy of the object
plus a script of outcomes, one consumed per issued update call.  `Get` never
fails (its error is explicitly ignored in the source) and returns the cluster
copy; a successful update stores the submitted object as the new cluster
copy.  The Go `sets.Set[string]` of changed top-level sections is modelled as
the list of its elements. -/

/-- Outcome of one Kubernetes update call. -/
inductive UOutcome
  | success
  | conflict
  | otherError
deriving DecidableEq, Repr

/-- Which update endpoint an issued update call used. -/
inductive UpdKind
  | statusSub
  | mainRes
deriving DecidableEq, Repr

/-- Errors escaping `updateWithRetry`: a conflict that exhausted the retry
budget, a non-conflict API error, or an error returned by the change
function. -/
inductive KErr
  | conflictErr
  | apiErr
  | funcErr
deriving DecidableEq, Repr

/-- The modelled Kubernetes client: cluster copy of the object and the update
outcome script. -/
structure KClient (α : Type) where
  current : α
  script : List UOutcome
deriving DecidableEq, Repr

/-- One update call against the modelled client: consumes the next scripted
outcome (success once the script is exhausted); on success the submitted
object becomes the cluster copy (`client.Update` does not modify the object
on error). -/
def kUpdate {α : Type} (cl : KClient α) (obj : α) : UOutcome × KClient α :=
  match cl.script with
  | [] => (.success, { cl with current := obj })
  | o :: rest => (o, { current := if o = .success then obj else cl.current, script := rest })

/-- The `retryLimit` constant (pkg/controller). -/
def retryLimit : Nat := 1

/-- One iteration of the `updateWithRetry` loop (pkg/controller), with the
loop state made explicit.  The Go loop counts `tries` up and re-enters on a
conflict only while `tries < maxRetries`; here the loop carries the
equivalent remaining retry budget `remaining = maxRetries - tries` (so the
source's `tries >= maxRetries` test is `remaining = 0`), which makes the
recursion structural.  On entry with `tries > 0` the object is refetched from
the cluster, then the change function is applied; a conflict with retries
remaining re-enters the loop, everything else returns.  The returned trace
records the issued update calls in order. -/
def updateWithRetryGo {α : Type} (cf : α → α × List GoStr × Option Unit) :
    Nat → Nat → KClient α → α → List UpdKind →
    Except KErr Unit × KClient α × List UpdKind
  | remaining, tries, cl, obj, trace =>
    let obj0 := if tries > 0 then cl.current else obj
    let r := cf obj0
    if (r.2.2).isSome then (.error .funcErr, cl, trace)
    else if r.2.1 = [] then (.ok (), cl, trace)
    else if r.2.1.contains statusStr then
      let u := kUpdate cl r.1
      let trace1 := trace ++ [UpdKind.statusSub]
      match u.1 with
      | .otherError => (.error .apiErr, u.2, trace1)
      | .conflict =>
        match remaining with
        | 0 => (.error .conflictErr, u.2, trace1)
        | rem + 1 => updateWithRetryGo cf rem (tries + 1) u.2 r.1 trace1
      | .success =>
        let changed1 := (r.2.1).filter (fun s => ¬ s = statusStr)
        if changed1 = [] then (.ok (), u.2, trace1)
        else
          let u2 := kUpdate u.2 r.1
          let trace2 := trace1 ++ [UpdKind.mainRes]
          match u2.1 with
          | .success => (.ok (), u2.2, trace2)
          | .otherError => (.error .apiErr, u2.2, trace2)
          | .conflict =>
            match remaining with
            | 0 => (.error .conflictErr, u2.2, trace2)
            | rem + 1 => updateWithRetryGo cf rem (tries + 1) u2.2 r.1 trace2
    else
      let u := kUpdate cl r.1
      let trace1 := trace ++ [UpdKind.mainRes]
      match u.1 with
      | .success => (.ok (), u.2, trace1)
      | .otherError => (.error .apiErr, u.2, trace1)
      | .conflict =>
        match remaining with
        | 0 => (.error .conflictErr, u.2, trace1)
        | rem + 1 => updateWithRetryGo cf rem (tries + 1) u.2 r.1 trace1

/-- `Controller.updateWithRetry`: the loop entered with `tries = 0` and the
full retry budget. -/
def updateWithRetry {α : Type} (cf : α → α × List GoStr × Option Unit) (maxRetries : Nat)
    (cl : KClient α) (obj : α) : Except KErr Unit × KClient α × List UpdKind :=
  updateWithRetryGo cf maxRetries 0 cl obj []

/-! ## Delete path of the reconciliation engine (`Controller.handleDelete`)

The controller instance is modelled with `StateDisplay == nil`, under which
`updateStateOnResource` returns immediately (first line of its source), so
the delete pass consists of the per-storage existence/delete loop followed by
the finalizer removal.  Each bound storage's backend is an oracle giving the
outcome of its `Exists` and `Delete` calls. -/

/-- The slice of an object the delete path manipulates: its finalizer list. -/
structure DelObj where
  finalizers : List GoStr
deriving DecidableEq, Repr

/-- The `K8SYNCER_FINALIZER` constant. -/
def k8sFinalizer : GoStr := "finalizer.k8syncer.gardener.cloud".toList

/-- `utils.HasFinalizer`: membership of the k8syncer finalizer. -/
def hasFin (o : DelObj) : Bool :=
  o.finalizers.contains k8sFinalizer

/-- `utils.RemoveFinalizer`: removes all k8syncer finalizers. -/
def removeFin (o : DelObj) : DelObj :=
  ⟨o.finalizers.filter (fun f => ¬ f = k8sFinalizer)⟩

/-- One bound storage backend with the scripted outcomes of the `Exists` and
`Delete` calls the delete pass may issue against it. -/
structure StorageB where
  name : GoStr
  existsRes : Except Unit Bool
  deleteRes : Option Unit
deriving DecidableEq, Repr

/-- Persister calls issued during a delete pass, in order. -/
inductive DelAct
  | checkedExistence (s : GoStr)
  | deletedData (s : GoStr)
deriving DecidableEq, Repr

/-- Errors escaping `handleDelete`. -/
inductive DelErr
  | existsFailed
  | deleteFailed
  | finalizerUpdateFailed
deriving DecidableEq, Repr

/-- The storage loop of `Controller.handleDelete` followed by its finalizer
block: for each storage check existence (an error aborts the pass); absence
of data returns success for the whole pass immediately; otherwise delete (an
error aborts the pass).  Only when the loop runs off the end of the storage
list is the finalizer removed (when present) via `updateWithRetry`.  Returns
the pass result, the final client, the persister-call trace, and the trace of
issued Kubernetes update calls. -/
def handleDeleteGo (cl : KClient DelObj) (obj : DelObj) :
    List StorageB → List DelAct →
    Except DelErr Unit × KClient DelObj × List DelAct × List UpdKind
  | [], trace =>
    if hasFin obj then
      let r := updateWithRetry (fun o => (removeFin o, [metadataStr], none)) retryLimit cl obj
      match r.1 with
      | .ok _ => (.ok (), r.2.1, trace, r.2.2)
      | .error _ => (.error .finalizerUpdateFailed, r.2.1, trace, r.2.2)
    else (.ok (), cl, trace, [])
  | st :: rest, trace =>
    let trace1 := trace ++ [DelAct.checkedExistence st.name]
    match st.existsRes with
    | .error _ => (.error .existsFailed, cl, trace1, [])
    | .ok dataFound =>
      if ¬ dataFound then (.ok (), cl, trace1, [])
      else
        match st.deleteRes with
        | some _ => (.error .deleteFailed, cl, trace1 ++ [DelAct.deletedData st.name], [])
        | none => handleDeleteGo cl obj rest (trace1 ++ [DelAct.deletedData st.name])

/-- `Controller.handleDelete` with a nil state display. -/
def handleDelete (cl : KClient DelObj) (obj : DelObj) (storages : List StorageB) :
    Except DelErr Unit × KClient DelObj × List DelAct × List UpdKind :=
  handleDeleteGo cl obj storages []

/-- The persister-call trace of one fully processed storage. -/
def delTraceOf (s : StorageB) : List DelAct :=
  [DelAct.checkedExistence s.name, DelAct.deletedData s.name]

/-! ## Git repository wrapper (pkg/utils/git/cmd_wrapper.go)

The remote is an oracle: scripts of outcomes consumed by push, pull, and
commit attempts (exhausted scripts yield success).  A push can fail with an
authorization error (`transport.ErrAuthorizationFailed`) or some other error;
a pull additionally has the benign outcomes the source swallows
(`NoErrAlreadyUpToDate`, `ErrReferenceNotFound`, `NoMatchingRefSpecError`,
`ErrEmptyRemoteRepository`). -/

/-- Outcome of one push attempt against the remote. -/
inductive PushOutcome
  | ok
  | authzFailed
  | failed
deriving DecidableEq, Repr

/-- Outcome of one pull attempt. -/
inductive PullOutcome
  | ok
  | benign
  | authzFailed
  | failed
deriving DecidableEq, Repr

/-- Errors escaping the git wrapper. -/
inductive GitErr
  | notInitialized
  | pushFailed
  | pushFailedSecondary
  | pullFailed
  | pullFailedSecondary
  | commitFailed
  | initFailed
deriving DecidableEq, Repr

/-- Git actions performed against the repository/remote, in order. -/
inductive GitAct
  | pushedPrimary
  | pushedSecondary
  | pulledPrimary
  | pulledSecondary
  | committed
deriving DecidableEq, Repr

/-- The modelled remote: outcome scripts for push, pull, and commit
attempts. -/
structure GitRemote where
  pushScript : List PushOutcome
  pullScript : List PullOutcome
  commitScript : List (Option Unit)
deriving DecidableEq, Repr

/-- Consume the next scripted push outcome (success once exhausted). -/
def nextPush (rm : GitRemote) : PushOutcome × GitRemote :=
  match rm.pushScript with
  | [] => (.ok, rm)
  | o :: rest => (o, { rm with pushScript := rest })

/-- Consume the next scripted pull outcome (success once exhausted). -/
def nextPull (rm : GitRemote) : PullOutcome × GitRemote :=
  match rm.pullScript with
  | [] => (.ok, rm)
  | o :: rest => (o, { rm with pullScript := rest })

/-- Consume the next scripted commit outcome (success once exhausted). -/
def nextCommit (rm : GitRemote) : Option Unit × GitRemote :=
  match rm.commitScript with
  | [] => (none, rm)
  | o :: rest => (o, { rm with commitScript := rest })

/-- `GitRepo.gitPull`: one pull attempt; benign outcomes are swallowed; an
authorization failure with a secondary credential configured triggers one
pull retry with the secondary credential, whose non-benign failure (of any
kind) is the returned error. -/
def gitPullModel (sec force : Bool) (rm : GitRemote) (tr : List GitAct) :
    Except GitErr Unit × GitRemote × List GitAct :=
  let _ := force
  let p := nextPull rm
  let tr1 := tr ++ [GitAct.pulledPrimary]
  match p.1 with
  | .ok => (.ok (), p.2, tr1)
  | .benign => (.ok (), p.2, tr1)
  | .authzFailed =>
    if sec then
      let p2 := nextPull p.2
      let tr2 := tr1 ++ [GitAct.pulledSecondary]
      match p2.1 with
      | .ok => (.ok (), p2.2, tr2)
      | .benign => (.ok (), p2.2, tr2)
      | _ => (.error .pullFailedSecondary, p2.2, tr2)
    else (.error .pullFailed, p.2, tr1)
  | .failed => (.error .pullFailed, p.2, tr1)

/-- Result of the push-attempt block of `GitRepo.gitPush` (the `repo.Push`
call with its secondary-credential fallback and the `isRetry` test):
succeeded, failed fatally, or - only possible when `isRetry` is false -
requests the pull-and-retry. -/
inductive PushStep
  | succeeded
  | fatal (e : GitErr)
  | retryNeeded
deriving DecidableEq, Repr

/-- The push-attempt block of `GitRepo.gitPush`: push with the primary
credential; on an authorization failure with a secondary credential
configured, push once more with the secondary credential and let that
outcome decide; on any other failure, fail fatally when this is already the
retry and request the pull-and-retry otherwise. -/
def gitPushAttempt (sec isRetry : Bool) (rm : GitRemote) (tr : List GitAct) :
    PushStep × GitRemote × List GitAct :=
  let p := nextPush rm
  let tr1 := tr ++ [GitAct.pushedPrimary]
  match p.1 with
  | .ok => (.succeeded, p.2, tr1)
  | .authzFailed =>
    if sec then
      let p2 := nextPush p.2
      let tr2 := tr1 ++ [GitAct.pushedSecondary]
      match p2.1 with
      | .ok => (.succeeded, p2.2, tr2)
      | _ => (.fatal .pushFailedSecondary, p2.2, tr2)
    else if isRetry then (.fatal .pushFailed, p.2, tr1) else (.retryNeeded, p.2, tr1)
  | .failed =>
    if isRetry then (.fatal .pushFailed, p.2, tr1) else (.retryNeeded, p.2, tr1)

/-- `GitRepo.gitPush(pullBefore, false)`: the recursion of the source calls
itself exactly once, with `isRetry = true`; here that recursion is unrolled.
An attempt with `isRetry = true` never returns `retryNeeded` (both failure
arms test `isRetry`), so the last arm below is unreachable and conservatively
returns the push failure. -/
def gitPushModel (sec pullBefore : Bool) (rm : GitRemote) :
    Except GitErr Unit × GitRemote × List GitAct :=
  let start : Except GitErr Unit × GitRemote × List GitAct :=
    if pullBefore then gitPullModel sec false rm [] else (.ok (), rm, [])
  match start with
  | (.error e, rm1, tr1) => (.error e, rm1, tr1)
  | (.ok _, rm1, tr1) =>
    let a1 := gitPushAttempt sec false rm1 tr1
    match a1.1 with
    | .succeeded => (.ok (), a1.2.1, a1.2.2)
    | .fatal e => (.error e, a1.2.1, a1.2.2)
    | .retryNeeded =>
      let pl := gitPullModel sec false a1.2.1 a1.2.2
      match pl.1 with
      | .error e => (.error e, pl.2.1, pl.2.2)
      | .ok _ =>
        let a2 := gitPushAttempt sec true pl.2.1 pl.2.2
        match a2.1 with
        | .succeeded => (.ok (), a2.2.1, a2.2.2)
        | .fatal e => (.error e, a2.2.1, a2.2.2)
        | .retryNeeded => (.error .pushFailed, a2.2.1, a2.2.2)

/-- The GitRepo handle: `initialized` models `repo != nil` (the
`IsInitialized` test), `hasUnpushedCommits` the flag of the same name, and
`secondaryConfigured` whether `SecondaryAuth` is non-nil. -/
structure GitRepo where
  initialized : Bool
  hasUnpushedCommits : Bool
  secondaryConfigured : Bool
deriving DecidableEq, Repr

/-- `NewRepo`: builds the handle with `repo == nil` (uninitialized) and no
unpushed commits. -/
def newRepo (sec : Bool) : GitRepo :=
  ⟨false, false, sec⟩

/-- `GitRepo.Initialize`, with the clone-or-open orchestration abstracted to
a single outcome: on success the handle becomes initialized. -/
def gitInitialize (r : GitRepo) (outcome : Option Unit) : Except GitErr Unit × GitRepo :=
  match outcome with
  | none => (.ok (), { r with initialized := true })
  | some _ => (.error .initFailed, r)

/-- `GitRepo.gitCommit`: one scripted commit attempt; on success the source
returns `(true, nil)` (a commit was made and a push is required). -/
def gitCommitModel (rm : GitRemote) : Except GitErr Bool × GitRemote :=
  let c := nextCommit rm
  match c.1 with
  | none => (.ok true, c.2)
  | some _ => (.error .commitFailed, c.2)

/-- `GitRepo.Commit`: returns `ErrNotInitialized` before any git action when
the handle is uninitialized; otherwise commits and records the unpushed
commit on the handle. -/
def repoCommit (r : GitRepo) (rm : GitRemote) :
    Except GitErr Bool × GitRepo × GitRemote × List GitAct :=
  if ¬ r.initialized then (.error .notInitialized, r, rm, [])
  else
    match gitCommitModel rm with
    | (.ok pushRequired, rm1) =>
      (.ok pushRequired, { r with hasUnpushedCommits := pushRequired }, rm1, [GitAct.committed])
    | (.error e, rm1) => (.error e, r, rm1, [GitAct.committed])

/-- `GitRepo.Push`: returns `ErrNotInitialized` before any git action when
the handle is uninitialized; otherwise pushes (via the push protocol) and on
success clears the unpushed-commit flag. -/
def repoPush (r : GitRepo) (rm : GitRemote) (pullBefore : Bool) :
    Except GitErr Unit × GitRepo × GitRemote × List GitAct :=
  if ¬ r.initialized then (.error .notInitialized, r, rm, [])
  else
    match gitPushModel r.secondaryConfigured pullBefore rm with
    | (.ok _, rm1, tr) => (.ok (), { r with hasUnpushedCommits := false }, rm1, tr)
    | (.error e, rm1, tr) => (.error e, r, rm1, tr)

/-- `GitRepo.CommitAndPush`: returns `ErrNotInitialized` before any git
action when the handle is uninitialized; otherwise commits and, if a commit
was made, pushes. -/
def repoCommitAndPush (r : GitRepo) (rm : GitRemote) (pullBefore : Bool) :
    Except GitErr Unit × GitRepo × GitRemote × List GitAct :=
  if ¬ r.initialized then (.error .notInitialized, r, rm, [])
  else
    match gitCommitModel rm with
    | (.error e, rm1) => (.error e, r, rm1, [GitAct.committed])
    | (.ok pushRequired, rm1) =>
      let r1 : GitRepo := { r with hasUnpushedCommits := pushRequired }
      if pushRequired then
        match gitPushModel r1.secondaryConfigured pullBefore rm1 with
        | (.ok _, rm2, tr) =>
          (.ok (), { r1 with hasUnpushedCommits := false }, rm2, GitAct.committed :: tr)
        | (.error e, rm2, tr) => (.error e, r1, rm2, GitAct.committed :: tr)
      else (.ok (), r1, rm1, [GitAct.committed])

/-- `GitRepo.Pull`: returns `ErrNotInitialized` before any git action when
the handle is uninitialized; otherwise pulls. -/
def repoPull (r : GitRepo) (rm : GitRemote) :
    Except GitErr Unit × GitRepo × GitRemote × List GitAct :=
  if ¬ r.initialized then (.error .notInitialized, r, rm, [])
  else
    match gitPullModel r.secondaryConfigured false rm [] with
    | (.ok _, rm1, tr) => (.ok (), r, rm1, tr)
    | (.error e, rm1, tr) => (.error e, r, rm1, tr)

/-! ## Filesystem persister (pkg/persist/filesystem)

The filesystem is an association list from file paths to contents; directory
creation (`MkdirAll` in `persistRaw`) has no observable effect on the
verified properties and is not represented.  `vfs.Join` joins its non-empty
elements with `/`; the subsequent path cleaning is the identity on the
inputs considered in the theorems below (components free of `/`, `.` and
`..` segments), and is not represented. -/

/-- GroupVersionKind, with Go string components. -/
structure GVK where
  group : GoStr
  version : GoStr
  kind : GoStr
deriving DecidableEq, Repr

/-- Go `strings.ToLower` (ASCII range; the Unicode cases do not arise for
the identifier character sets of the theorems below). -/
def toLowerStr (s : GoStr) : GoStr :=
  s.map Char.toLower

/-- Go `strings.TrimSuffix(s, t)` for a one-character suffix: removes one
occurrence when present. -/
def trimSuffixChar (c : Char) (s : GoStr) : GoStr :=
  if hasSuffixChar c s then s.dropLast else s

/-- Go `strings.HasPrefix(s, t)` for a one-character head. -/
def hasPrefChar (c : Char) (s : GoStr) : Bool :=
  s.head? = some c

/-- `GVKToString` (pkg/utils/utils.go): `<lowercase-kind>.<version>.<group>`,
with one trailing dot trimmed when `suppressDotSuffix` is set. -/
def gvkToString (gvk : GVK) (suppressDotSuffix : Bool) : GoStr :=
  let res := toLowerStr gvk.kind ++ ('.' :: (gvk.version ++ ('.' :: gvk.group)))
  if suppressDotSuffix then trimSuffixChar '.' res else res

/-- Joining path elements with `/`. -/
def joinIntercalate : List GoStr → GoStr
  | [] => []
  | [x] => x
  | x :: y :: t => x ++ ('/' :: joinIntercalate (y :: t))

/-- `vfs.Join`: empty elements are skipped, the rest joined with `/`. -/
def goJoin (parts : List GoStr) : GoStr :=
  joinIntercalate (parts.filter (fun p => ¬ p = []))

/-- The configuration fields of a `FileSystemPersister`. -/
structure FspConfig where
  nsPref : GoStr
  gvkNameSep : GoStr
  fileExt : GoStr
  rootPath : GoStr
deriving DecidableEq, Repr

/-- The default `FileSystemPersister` configuration built by `New`:
namespace directory prefix `ns_`, separator `_`, extension `yaml`. -/
def defaultFspConfig (root : GoStr) : FspConfig :=
  ⟨"ns_".toList, "_".toList, "yaml".toList, root⟩

/-- `FileSystemPersister.GetResourceFilepath` (unnamed/part_014): computes
the file path and the namespace directory name. -/
def getResourceFilepath (p : FspConfig) (name ns : GoStr) (gvk : GVK) (subPath : GoStr) :
    GoStr × GoStr :=
  let prefNs := if ns = [] then [] else p.nsPref ++ ns
  let prefExt :=
    if ¬ p.fileExt = [] ∧ ¬ hasPrefChar '.' p.fileExt then '.' :: p.fileExt else p.fileExt
  let gvkStr := gvkToString gvk true
  let filename := gvkStr ++ p.gvkNameSep ++ name ++ prefExt
  (goJoin [p.rootPath, subPath, prefNs, filename], prefNs)

/-- The filesystem slice the persister touches: a map from file path to
content bytes. -/
structure FsState (δ : Type) where
  files : List (GoStr × List δ)
deriving DecidableEq, Repr

/-- `FileSystemPersister.getRaw`: nil (None) for an absent file. -/
def getRawFs {δ : Type} (fs : FsState δ) (path : GoStr) : Option (List δ) :=
  mapLookup fs.files path

/-- `FileSystemPersister.persistRaw`: writes the file (directory creation is
immaterial here). -/
def writeFs {δ : Type} (fs : FsState δ) (path : GoStr) (d : List δ) : FsState δ :=
  ⟨mapSet fs.files path d⟩

/-- Go `bytes.Equal(new, existing)` with the stored side possibly nil: a nil
slice equals the empty slice. -/
def bytesEqualOpt {δ : Type} [DecidableEq δ] (nd : List δ) (old : Option (List δ)) : Bool :=
  nd = old.getD []

/-- A Kubernetes resource as the persister sees it: its identity plus an
opaque payload the transformer and serializer work on. -/
structure KRes (ρ : Type) where
  name : GoStr
  ns : GoStr
  gvk : GVK
  payload : ρ
deriving DecidableEq, Repr

/-- `FileSystemPersister.Persist` (unnamed/part_014), with the transformer
and the YAML serialization (`ConvertToPersistence`) as abstract functions:
read the existing bytes at the resource's path, transform, serialize,
compare byte-for-byte, and write only on difference. -/
def fspPersist {ρ δ : Type} [DecidableEq δ] (p : FspConfig) (transform : KRes ρ → KRes ρ)
    (ser : KRes ρ → List δ) (fs : FsState δ) (res : KRes ρ) (subPath : GoStr) :
    FsState δ × KRes ρ × Bool :=
  let fp := (getResourceFilepath p res.name res.ns res.gvk subPath).1
  let existing := getRawFs fs fp
  let transformed := transform res
  let newData := ser transformed
  if bytesEqualOpt newData existing then (fs, transformed, false)
  else (writeFs fs fp newData, transformed, true)

/-! ## Basic transformers (pkg/persist/transformers)

The object is modelled as its metadata map (with opaque non-nil values; a
Go `nil` map entry and an absent entry are indistinguishable to the
`oldMeta[field] != nil` test and are both modelled as absence), an optional
status, and the untouched remainder of its top level. -/

/-- An unstructured object as the transformers see it. -/
structure UObj (ν : Type) where
  metadata : Option (List (GoStr × ν))
  status : Option ν
  rest : List (GoStr × ν)
deriving DecidableEq, Repr

/-- The default `MetadataCopyFields` of the newer `transformers.NewBasic`
(the `Transformer` interface): includes `generation`. -/
def basicCopyFieldsNew : List GoStr :=
  ["name".toList, "generateName".toList, "namespace".toList, "generation".toList,
    "uid".toList, "labels".toList, "ownerReferences".toList]

/-- The default `MetadataCopyFields` of the older `transformers.NewBasic`
(the `ResourceTransformer` interface): no `generation`. -/
def basicCopyFieldsOld : List GoStr :=
  ["name".toList, "generateName".toList, "namespace".toList,
    "uid".toList, "labels".toList, "ownerReferences".toList]

/-- The metadata-reduction loop shared by both `Basic.Transform`
implementations: walks the copy-field list and keeps the fields present
(non-nil) in the old metadata. -/
def reduceMeta {ν : Type} (copyFields : List GoStr) (oldMeta : List (GoStr × ν)) :
    List (GoStr × ν) :=
  copyFields.foldl
    (fun acc f =>
      match mapLookup oldMeta f with
      | some v => mapSet acc f v
      | none => acc)
    []

/-- The shared behavior of both `Basic.Transform` implementations, as a
function of the copy-field list: reduce the metadata to the configured
fields and delete the status.  Absent metadata is an error in the newer
implementation and a panic in the older one; both are modelled as the error
case. -/
def basicTransform {ν : Type} (copyFields : List GoStr) (obj : UObj ν) :
    Except Unit (UObj ν) :=
  match obj.metadata with
  | none => .error ()
  | some oldMeta => .ok { obj with metadata := some (reduceMeta copyFields oldMeta), status := none }

/-! ## Claim theorems -/

/-- Lookup after setting the same key. -/
theorem mapLookup_mapSet_self {α β : Type} [DecidableEq α] (m : List (α × β)) (k : α) (v : β) :
    mapLookup (mapSet m k v) k = some v := by
  induction m with
  | nil => simp [mapSet, mapLookup]
  | cons hd t ih =>
    obtain ⟨k0, v0⟩ := hd
    by_cases hk : k0 = k
    · simp [mapSet, hk, mapLookup]
    · simp [mapSet, hk, mapLookup, ih]

/-- C7: `FileSystemPersister.Persist` is idempotent.  If the freshly
transformed serialization byte-equals the stored bytes at the resource's
path, nothing is written and `changed = false`; and for every filesystem and
resource, a second `Persist` of the unchanged resource returns
`changed = false` and leaves the filesystem - hence the stored artifact -
untouched. -/
theorem fspPersist_idempotent {ρ δ : Type} [DecidableEq δ] (p : FspConfig)
    (t : KRes ρ → KRes ρ) (s : KRes ρ → List δ) (fs : FsState δ) (res : KRes ρ) (sub : GoStr) :
    (bytesEqualOpt (s (t res))
        (getRawFs fs (getResourceFilepath p res.name res.ns res.gvk sub).1) = true →
      fspPersist p t s fs res sub = (fs, t res, false)) ∧
    fspPersist p t s (fspPersist p t s fs res sub).1 res sub
      = ((fspPersist p t s fs res sub).1, t res, false) := by
  constructor
  · intro h
    simp only [bytesEqualOpt, decide_eq_true_eq] at h
    simp [fspPersist, bytesEqualOpt, h]
  · by_cases h : s (t res)
        = (mapLookup fs.files (getResourceFilepath p res.name res.ns res.gvk sub).1).getD []
    · simp [fspPersist, bytesEqualOpt, getRawFs, h]
    · simp [fspPersist, bytesEqualOpt, getRawFs, h, writeFs, mapLookup_mapSet_self]

/-- C7, witness: a fresh in-memory filesystem; the first call stores the
artifact, the second is a no-op; and on a filesystem already holding the
artifact the very first call is a no-op. -/
theorem fspPersist_idempotent_witness :
    fspPersist (defaultFspConfig "/r".toList) id (fun _ => [true])
        ⟨[("/r/pod.v1_n.yaml".toList, [true])]⟩
        (⟨"n".toList, [], ⟨[], "v1".toList, "pod".toList⟩, ()⟩ : KRes Unit) []
      = (⟨[("/r/pod.v1_n.yaml".toList, [true])]⟩,
          ⟨"n".toList, [], ⟨[], "v1".toList, "pod".toList⟩, ()⟩, false) ∧
    fspPersist (defaultFspConfig "/r".toList) id (fun _ => [true])
        (fspPersist (defaultFspConfig "/r".toList) id (fun _ => [true]) ⟨[]⟩
          (⟨"n".toList, [], ⟨[], "v1".toList, "pod".toList⟩, ()⟩ : KRes Unit) []).1
        (⟨"n".toList, [], ⟨[], "v1".toList, "pod".toList⟩, ()⟩ : KRes Unit) []
      = ((fspPersist (defaultFspConfig "/r".toList) id (fun _ => [true]) ⟨[]⟩
          (⟨"n".toList, [], ⟨[], "v1".toList, "pod".toList⟩, ()⟩ : KRes Unit) []).1,
          ⟨"n".toList, [], ⟨[], "v1".toList, "pod".toList⟩, ()⟩, false) :=
  ⟨(fspPersist_idempotent (defaultFspConfig "/r".toList) id (fun _ => [true])
      ⟨[("/r/pod.v1_n.yaml".toList, [true])]⟩
      ⟨"n".toList, [], ⟨[], "v1".toList, "pod".toList⟩, ()⟩ []).1 (by decide),
    (fspPersist_idempotent (defaultFspConfig "/r".toList) id (fun _ => [true]) ⟨[]⟩
      ⟨"n".toList, [], ⟨[], "v1".toList, "pod".toList⟩, ()⟩ []).2⟩

/-- C5: the optimistic-retry update helper.  For every idempotent mutation
function (modelled as one returning a fixed changed-section set `S` and the
mutated object `g x`): an empty `S` issues no API write; `S = {"status"}`
issues exactly one status-subresource update; any other non-empty `S`
issues a main-resource update ({"status", "metadata"} issues both); exactly
one version conflict is retried - the object is refetched from the cluster
and the mutation reapplied to the refetched copy - and succeeds; a second
consecutive conflict or any non-conflict error is fatal. -/
theorem updateWithRetry_conflict_retry_spec (α : Type) (g : α → α) (S : List GoStr)
    (cl : KClient α) (obj : α) (rest : List UOutcome) :
    (S = [] →
      updateWithRetry (fun x => (g x, S, (none : Option Unit))) retryLimit cl obj
        = (.ok (), cl, [])) ∧
    (S = [statusStr] → cl.script = .success :: rest →
      updateWithRetry (fun x => (g x, S, (none : Option Unit))) retryLimit cl obj
        = (.ok (), ⟨g obj, rest⟩, [UpdKind.statusSub])) ∧
    (statusStr ∉ S → S ≠ [] → cl.script = .success :: rest →
      updateWithRetry (fun x => (g x, S, (none : Option Unit))) retryLimit cl obj
        = (.ok (), ⟨g obj, rest⟩, [UpdKind.mainRes])) ∧
    (S = [statusStr, metadataStr] → cl.script = .success :: .success :: rest →
      updateWithRetry (fun x => (g x, S, (none : Option Unit))) retryLimit cl obj
        = (.ok (), ⟨g obj, rest⟩, [UpdKind.statusSub, UpdKind.mainRes])) ∧
    (S = [statusStr] → cl.script = .conflict :: .success :: rest →
      updateWithRetry (fun x => (g x, S, (none : Option Unit))) retryLimit cl obj
        = (.ok (), ⟨g cl.current, rest⟩, [UpdKind.statusSub, UpdKind.statusSub])) ∧
    (statusStr ∉ S → S ≠ [] → cl.script = .conflict :: .success :: rest →
      updateWithRetry (fun x => (g x, S, (none : Option Unit))) retryLimit cl obj
        = (.ok (), ⟨g cl.current, rest⟩, [UpdKind.mainRes, UpdKind.mainRes])) ∧
    (S ≠ [] → cl.script = .conflict :: .conflict :: rest →
      (updateWithRetry (fun x => (g x, S, (none : Option Unit))) retryLimit cl obj).1
        = .error .conflictErr) ∧
    (S ≠ [] → cl.script = .otherError :: rest →
      (updateWithRetry (fun x => (g x, S, (none : Option Unit))) retryLimit cl obj).1
        = .error .apiErr) := by
  obtain ⟨cur, script⟩ := cl
  refine ⟨?_, ?_, ?_, ?_, ?_, ?_, ?_, ?_⟩
  · intro hS
    subst hS
    simp [updateWithRetry, updateWithRetryGo]
  · intro hS hs
    subst hS
    simp only at hs
    subst hs
    simp [updateWithRetry, updateWithRetryGo, kUpdate, retryLimit]
  · intro hc hS hs
    simp only at hs
    subst hs
    simp [updateWithRetry, updateWithRetryGo, kUpdate, retryLimit, hc, hS]
  · intro hS hs
    subst hS
    simp only at hs
    subst hs
    simp [updateWithRetry, updateWithRetryGo, kUpdate, retryLimit, metadataStr, statusStr]
  · intro hS hs
    subst hS
    simp only at hs
    subst hs
    simp [updateWithRetry, updateWithRetryGo, kUpdate, retryLimit]
  · intro hc hS hs
    simp only at hs
    subst hs
    simp [updateWithRetry, updateWithRetryGo, kUpdate, retryLimit, hc, hS]
  · intro hS hs
    simp only at hs
    subst hs
    by_cases hc : statusStr ∈ S
    · simp [updateWithRetry, updateWithRetryGo, kUpdate, retryLimit, hc, hS]
    · simp [updateWithRetry, updateWithRetryGo, kUpdate, retryLimit, hc, hS]
  · intro hS hs
    simp only at hs
    subst hs
    by_cases hc : statusStr ∈ S
    · simp [updateWithRetry, updateWithRetryGo, kUpdate, retryLimit, hc, hS]
    · simp [updateWithRetry, updateWithRetryGo, kUpdate, retryLimit, hc, hS]

/-- C5, witness: a status-section state write hitting one conflict succeeds
after one retry, reapplied to the refetched cluster object; two consecutive
conflicts are fatal; an empty change report issues no write. -/
theorem updateWithRetry_conflict_retry_spec_witness :
    updateWithRetry (fun (x : Bool) => (id x, [statusStr], (none : Option Unit))) retryLimit
        ⟨true, [UOutcome.conflict, UOutcome.success]⟩ false
      = (.ok (), ⟨true, []⟩, [UpdKind.statusSub, UpdKind.statusSub]) ∧
    (updateWithRetry (fun (x : Bool) => (id x, [statusStr], (none : Option Unit))) retryLimit
        ⟨true, [UOutcome.conflict, UOutcome.conflict]⟩ false).1 = .error .conflictErr ∧
    updateWithRetry (fun (x : Bool) => (id x, ([] : List GoStr), (none : Option Unit))) retryLimit
        ⟨true, [UOutcome.conflict]⟩ false
      = (.ok (), ⟨true, [UOutcome.conflict]⟩, []) :=
  ⟨(updateWithRetry_conflict_retry_spec Bool id [statusStr]
      ⟨true, [UOutcome.conflict, UOutcome.success]⟩ false []).2.2.2.2.1 rfl rfl,
    (updateWithRetry_conflict_retry_spec Bool id [statusStr]
      ⟨true, [UOutcome.conflict, UOutcome.conflict]⟩ false []).2.2.2.2.2.2.1 (by decide) rfl,
    (updateWithRetry_conflict_retry_spec Bool id []
      ⟨true, [UOutcome.conflict]⟩ false []).1 rfl⟩

/-- C2: evaluation of `ParseSimpleJSONPath` at the four documented examples.
Three hold, but on `a\\.b.c` (two backslashes before the first dot) the
implementation returns `["a.b", "c"]`, not the `["a\", "b", "c"]` promised by
the function's own doc comment and the specification: `strings.TrimRight`
strips all trailing backslashes (so the inner `HasSuffix` re-test can never
fire), collapsing the escaped backslash and merging the fields. -/
theorem parseSimpleJSONPath_double_backslash_collapses :
    parseSimpleJSONPath ['a', '\\', '\\', '.', 'b', '.', 'c'] = [['a', '.', 'b'], ['c']] ∧
    parseSimpleJSONPath ['a', '\\', '\\', '.', 'b', '.', 'c'] ≠ [['a', '\\'], ['b'], ['c']] ∧
    parseSimpleJSONPath ['a', '.', 'b', '.', 'c'] = [['a'], ['b'], ['c']] ∧
    parseSimpleJSONPath ['a', '\\', '.', 'b', '.', 'c'] = [['a', '.', 'b'], ['c']] ∧
    parseSimpleJSONPath ['a', '\\', 'a', '.', 'b', '.', 'c', '\\'] =
      [['a', '\\', 'a'], ['b'], ['c', '\\']] := by
  decide

/-- C1: evaluation of the annotation state display at the failing input.
With verbosity `generation`, `Write` projects the state
`{lastSyncedGeneration: 1}` onto the object as the decimal annotation string
`"1"`, but the subsequent `Read` by the same display returns an
`InvalidStateError` although the stored value parses as an integer: `Read`
passes the raw annotation string to `SetField`, whose `hasCorrectType` for
the generation demands a Go `int64` (and for the phase the named type
`Phase`), and no parsing step exists.  The claimed round-trip therefore
fails for every verbosity of the annotation display. -/
theorem annotation_state_write_then_read_fails_invalidState :
    annWrite ⟨none⟩ ⟨svGeneration, [], 1, []⟩ allStateFields
      = .ok ([], ⟨some [(fieldAnn .generation, ['1'])]⟩) ∧
    annRead svGeneration ⟨some [(fieldAnn .generation, ['1'])]⟩ = .error .invalidState := by
  decide

/-- C3: evaluation of the annotation display's `Write` at the failing input.
Writing phase-verbosity state onto an object that has no annotations yet
stores two annotations (the object is modified), yet the returned set of
changed top-level sections is empty: the `changed` flag is only set inside
the `if found` branch, so a first-time write never reports `"metadata"`. -/
theorem annotation_state_first_write_reports_no_sections :
    annWrite ⟨none⟩ ⟨svPhase, pProgressing, 0, []⟩ allStateFields
      = .ok ([], ⟨some [(fieldAnn .generation, ['0']), (fieldAnn .phase, pProgressing)]⟩) ∧
    (⟨some [(fieldAnn .generation, ['0']), (fieldAnn .phase, pProgressing)]⟩ : AnnObj)
      ≠ ⟨none⟩ := by
  decide

/-- C9: evaluation of the two `Basic` transformers at the failing input (an
object whose metadata carries `name` and `generation`, plus a status).  The
newer `Transformer` retains `metadata.generation` - its default copy-field
list includes `generation` - contradicting the specification and the
repository's own storage documentation (whose example drops `generation: 1`
from the persisted artifact); the older `ResourceTransformer` retains
exactly the six documented fields.  Both always drop the status. -/
theorem basicTransform_generation_retained_by_newer :
    basicTransform basicCopyFieldsNew
        (⟨some [("name".toList, "x".toList), ("generation".toList, "1".toList)],
          some "st".toList, []⟩ : UObj GoStr)
      = .ok ⟨some [("name".toList, "x".toList), ("generation".toList, "1".toList)], none, []⟩ ∧
    basicTransform basicCopyFieldsOld
        (⟨some [("name".toList, "x".toList), ("generation".toList, "1".toList)],
          some "st".toList, []⟩ : UObj GoStr)
      = .ok ⟨some [("name".toList, "x".toList)], none, []⟩ ∧
    "generation".toList ∉ basicCopyFieldsOld ∧ "generation".toList ∈ basicCopyFieldsNew := by
  decide

/-- C10: every operation of an uninitialized `GitRepo` handle - as built by
`NewRepo`, before a successful `Initialize` - fails with `ErrNotInitialized`,
leaves the handle (including the unpushed-commit flag) and the remote
untouched, and performs no git action. -/
theorem gitRepo_uninitialized_ops_return_error (r : GitRepo) (rm : GitRemote) (pb : Bool)
    (h : r.initialized = false) :
    (newRepo r.secondaryConfigured).initialized = false ∧
    repoCommit r rm = (.error .notInitialized, r, rm, []) ∧
    repoPush r rm pb = (.error .notInitialized, r, rm, []) ∧
    repoCommitAndPush r rm pb = (.error .notInitialized, r, rm, []) ∧
    repoPull r rm = (.error .notInitialized, r, rm, []) := by
  refine ⟨rfl, ?_, ?_, ?_, ?_⟩ <;>
    simp [repoCommit, repoPush, repoCommitAndPush, repoPull, h]

/-- C10, witness: the theorem applied to a freshly built handle. -/
theorem gitRepo_uninitialized_ops_return_error_witness :
    (newRepo (newRepo true).secondaryConfigured).initialized = false ∧
    repoCommit (newRepo true) ⟨[], [], []⟩ = (.error .notInitialized, newRepo true, ⟨[], [], []⟩, []) ∧
    repoPush (newRepo true) ⟨[], [], []⟩ false
      = (.error .notInitialized, newRepo true, ⟨[], [], []⟩, []) ∧
    repoCommitAndPush (newRepo true) ⟨[], [], []⟩ false
      = (.error .notInitialized, newRepo true, ⟨[], [], []⟩, []) ∧
    repoPull (newRepo true) ⟨[], [], []⟩ = (.error .notInitialized, newRepo true, ⟨[], [], []⟩, []) :=
  gitRepo_uninitialized_ops_return_error (newRepo true) ⟨[], [], []⟩ false rfl

/-- The concatenated persister-call traces of a list of fully processed
storages. -/
def delTraces : List StorageB → List DelAct
  | [] => []
  | s :: t => delTraceOf s ++ delTraces t

/-- Removing the finalizer really removes it. -/
theorem hasFin_removeFin (o : DelObj) : hasFin (removeFin o) = false := by
  simp [hasFin, removeFin, List.mem_filter]

/-- Storages whose data exists and whose deletion succeeds are processed
transparently by the delete loop: their checks and deletions are appended to
the trace and the loop continues. -/
theorem handleDeleteGo_clean_prefix (cl : KClient DelObj) (obj : DelObj)
    (pre rest : List StorageB) :
    ∀ tr, (∀ s ∈ pre, s.existsRes = .ok true ∧ s.deleteRes = none) →
      handleDeleteGo cl obj (pre ++ rest) tr = handleDeleteGo cl obj rest (tr ++ delTraces pre) := by
  induction pre with
  | nil => intro tr _; simp [delTraces]
  | cons s t ih =>
    intro tr h
    obtain ⟨hs, ht⟩ := List.forall_mem_cons.mp h
    rw [List.cons_append]
    rw [show handleDeleteGo cl obj (s :: (t ++ rest)) tr
        = handleDeleteGo cl obj (t ++ rest) (tr ++ delTraceOf s) from by
      simp [handleDeleteGo, hs.1, hs.2, delTraceOf]]
    rw [ih _ ht]
    simp [delTraces, delTraceOf]

/-- C4, counterexample: a delete pass over two bound storages where the first
reports no data.  The pass short-circuits as a success after the first
existence check (the second backend is neither checked nor deleted), but the
resource carried the sync finalizer at the start of the pass and no update
was issued: the finalizer is still present at the end of the error-free
pass, contradicting the claim's second conjunct. -/
theorem handleDelete_short_circuit_leaves_finalizer :
    handleDelete ⟨⟨[k8sFinalizer]⟩, []⟩ ⟨[k8sFinalizer]⟩
        [⟨"s1".toList, .ok false, none⟩, ⟨"s2".toList, .ok true, none⟩]
      = (.ok (), ⟨⟨[k8sFinalizer]⟩, []⟩, [DelAct.checkedExistence "s1".toList], []) ∧
    hasFin ⟨[k8sFinalizer]⟩ = true := by
  decide

/-- C4, amended: the delete path checks existence per bound storage in
order, and the first backend found without data ends the whole pass as a
success with the remaining backends neither checked nor deleted - but also
without touching the finalizer.  When no backend short-circuits the pass
(every bound storage has data and deletes cleanly), an error-free pass
removes the finalizer via the optimistic-retry update exactly when the
resource carried it at the start, and issues no update otherwise. -/
theorem handleDelete_delete_pass_spec (pre post storages : List StorageB) (st : StorageB)
    (cl : KClient DelObj) (obj : DelObj) :
    ((∀ s ∈ pre, s.existsRes = .ok true ∧ s.deleteRes = none) → st.existsRes = .ok false →
      handleDelete cl obj (pre ++ st :: post)
        = (.ok (), cl, delTraces pre ++ [DelAct.checkedExistence st.name], [])) ∧
    ((∀ s ∈ storages, s.existsRes = .ok true ∧ s.deleteRes = none) → hasFin obj = true →
      cl.script = [] →
      handleDelete cl obj storages
          = (.ok (), ⟨removeFin obj, []⟩, delTraces storages, [UpdKind.mainRes]) ∧
        hasFin (removeFin obj) = false) ∧
    ((∀ s ∈ storages, s.existsRes = .ok true ∧ s.deleteRes = none) → hasFin obj = false →
      handleDelete cl obj storages = (.ok (), cl, delTraces storages, [])) := by
  refine ⟨?_, ?_, ?_⟩
  · intro hpre hst
    rw [handleDelete, handleDeleteGo_clean_prefix cl obj pre (st :: post) [] hpre]
    simp [handleDeleteGo, hst]
  · intro hall hf hscript
    obtain ⟨cur, script⟩ := cl
    simp only at hscript
    subst hscript
    refine ⟨?_, hasFin_removeFin obj⟩
    rw [handleDelete,
      show storages = storages ++ [] from (List.append_nil storages).symm,
      handleDeleteGo_clean_prefix _ _ storages [] [] hall]
    simp [handleDeleteGo, hf, updateWithRetry, updateWithRetryGo, kUpdate, metadataStr, statusStr]
  · intro hall hf
    rw [handleDelete,
      show storages = storages ++ [] from (List.append_nil storages).symm,
      handleDeleteGo_clean_prefix _ _ storages [] [] hall]
    simp [handleDeleteGo, hf]

/-- C4, witness: the amended theorem applied to concrete passes - a
short-circuiting pass behind one clean storage, and a completed pass over
one clean storage that removes the finalizer. -/
theorem handleDelete_delete_pass_spec_witness :
    handleDelete ⟨⟨[k8sFinalizer]⟩, []⟩ ⟨[k8sFinalizer]⟩
        [⟨"a".toList, .ok true, none⟩, ⟨"b".toList, .ok false, none⟩]
      = (.ok (), ⟨⟨[k8sFinalizer]⟩, []⟩,
          delTraces [⟨"a".toList, .ok true, none⟩] ++ [DelAct.checkedExistence "b".toList], []) ∧
    (handleDelete ⟨⟨[k8sFinalizer]⟩, []⟩ ⟨[k8sFinalizer]⟩ [⟨"a".toList, .ok true, none⟩]
        = (.ok (), ⟨removeFin ⟨[k8sFinalizer]⟩, []⟩,
            delTraces [⟨"a".toList, .ok true, none⟩], [UpdKind.mainRes]) ∧
      hasFin (removeFin ⟨[k8sFinalizer]⟩) = false) ∧
    handleDelete ⟨⟨[]⟩, []⟩ ⟨[]⟩ [⟨"a".toList, .ok true, none⟩]
      = (.ok (), ⟨⟨[]⟩, []⟩, delTraces [⟨"a".toList, .ok true, none⟩], []) :=
  ⟨(handleDelete_delete_pass_spec [⟨"a".toList, .ok true, none⟩] []
      [⟨"a".toList, .ok true, none⟩] ⟨"b".toList, .ok false, none⟩
      ⟨⟨[k8sFinalizer]⟩, []⟩ ⟨[k8sFinalizer]⟩).1 (by decide) rfl,
    (handleDelete_delete_pass_spec [] [] [⟨"a".toList, .ok true, none⟩]
      ⟨"b".toList, .ok false, none⟩ ⟨⟨[k8sFinalizer]⟩, []⟩ ⟨[k8sFinalizer]⟩).2.1
      (by decide) (by decide) rfl,
    (handleDelete_delete_pass_spec [] [] [⟨"a".toList, .ok true, none⟩]
      ⟨"b".toList, .ok false, none⟩ ⟨⟨[]⟩, []⟩ ⟨[]⟩).2.2 (by decide) (by decide)⟩

/-- C6, counterexample: with a secondary credential configured, a first push
that fails with an authorization error is NOT followed by a pull and a
retried push - the code immediately retries with the secondary credential
and returns its outcome; the successful operation performed no pull at all,
contradicting the claim's "on any push failure a pull is performed and the
push retried exactly once more". -/
theorem gitPush_secondary_auth_skips_pull :
    gitPushModel true false ⟨[.authzFailed, .ok], [], []⟩
      = (.ok (), ⟨[], [], []⟩, [GitAct.pushedPrimary, GitAct.pushedSecondary]) ∧
    GitAct.pulledPrimary ∉ [GitAct.pushedPrimary, GitAct.pushedSecondary] ∧
    GitAct.pulledSecondary ∉ [GitAct.pushedPrimary, GitAct.pushedSecondary] := by
  decide

/-- C6, amended: a push is attempted; a push failure carrying an
authorization error while a secondary credential is configured is retried
immediately once with the secondary credential, without a pull, and that
retry's outcome is final; any other push failure triggers a pull and, if the
pull succeeds (benign outcomes included), exactly one retried push, whose
failure is fatal with no further retries; a pull failure is itself fatal
without a retried push. -/
theorem gitPush_retry_protocol_spec (po po2 : PushOutcome) (pu : PullOutcome)
    (restPush : List PushOutcome) (restPull : List PullOutcome) (cs : List (Option Unit))
    (sec : Bool) :
    (gitPushModel sec false ⟨.ok :: restPush, restPull, cs⟩
      = (.ok (), ⟨restPush, restPull, cs⟩, [GitAct.pushedPrimary])) ∧
    (po ≠ .ok → (pu = .ok ∨ pu = .benign) →
      gitPushModel false false ⟨po :: .ok :: restPush, pu :: restPull, cs⟩
        = (.ok (), ⟨restPush, restPull, cs⟩,
            [GitAct.pushedPrimary, GitAct.pulledPrimary, GitAct.pushedPrimary])) ∧
    (po ≠ .ok → po2 ≠ .ok → (pu = .ok ∨ pu = .benign) →
      gitPushModel false false ⟨po :: po2 :: restPush, pu :: restPull, cs⟩
        = (.error .pushFailed, ⟨restPush, restPull, cs⟩,
            [GitAct.pushedPrimary, GitAct.pulledPrimary, GitAct.pushedPrimary])) ∧
    (po ≠ .ok → (pu = .authzFailed ∨ pu = .failed) →
      gitPushModel false false ⟨po :: restPush, pu :: restPull, cs⟩
        = (.error .pullFailed, ⟨restPush, restPull, cs⟩,
            [GitAct.pushedPrimary, GitAct.pulledPrimary])) ∧
    (gitPushModel true false ⟨.authzFailed :: .ok :: restPush, restPull, cs⟩
      = (.ok (), ⟨restPush, restPull, cs⟩, [GitAct.pushedPrimary, GitAct.pushedSecondary])) ∧
    (po2 ≠ .ok →
      gitPushModel true false ⟨.authzFailed :: po2 :: restPush, restPull, cs⟩
        = (.error .pushFailedSecondary, ⟨restPush, restPull, cs⟩,
            [GitAct.pushedPrimary, GitAct.pushedSecondary])) := by
  refine ⟨?_, ?_, ?_, ?_, ?_, ?_⟩
  · simp [gitPushModel, gitPushAttempt, nextPush]
  · intro hpo hpu
    rcases hpu with rfl | rfl <;> cases po <;>
      simp_all [gitPushModel, gitPushAttempt, gitPullModel, nextPush, nextPull]
  · intro hpo hpo2 hpu
    rcases hpu with rfl | rfl <;> cases po <;> cases po2 <;>
      simp_all [gitPushModel, gitPushAttempt, gitPullModel, nextPush, nextPull]
  · intro hpo hpu
    rcases hpu with rfl | rfl <;> cases po <;>
      simp_all [gitPushModel, gitPushAttempt, gitPullModel, nextPush, nextPull]
  · simp [gitPushModel, gitPushAttempt, nextPush]
  · intro hpo2
    cases po2 <;> simp_all [gitPushModel, gitPushAttempt, nextPush]

/-- C6, witness: the amended protocol applied to concrete scripts - a failed
push followed by a pull and a successful retry; two failures with a fatal
end; a fatal pull; and the secondary-credential path. -/
theorem gitPush_retry_protocol_spec_witness :
    gitPushModel false false ⟨[.failed, .ok], [.ok], []⟩
      = (.ok (), ⟨[], [], []⟩,
          [GitAct.pushedPrimary, GitAct.pulledPrimary, GitAct.pushedPrimary]) ∧
    gitPushModel false false ⟨[.failed, .failed], [.benign], []⟩
      = (.error .pushFailed, ⟨[], [], []⟩,
          [GitAct.pushedPrimary, GitAct.pulledPrimary, GitAct.pushedPrimary]) ∧
    gitPushModel false false ⟨[.failed], [.failed], []⟩
      = (.error .pullFailed, ⟨[], [], []⟩, [GitAct.pushedPrimary, GitAct.pulledPrimary]) ∧
    gitPushModel true false ⟨[.authzFailed, .failed], [], []⟩
      = (.error .pushFailedSecondary, ⟨[], [], []⟩,
          [GitAct.pushedPrimary, GitAct.pushedSecondary]) :=
  ⟨(gitPush_retry_protocol_spec .failed .failed .ok [] [] [] false).2.1
      (by decide) (Or.inl rfl),
    (gitPush_retry_protocol_spec .failed .failed .benign [] [] [] false).2.2.1
      (by decide) (by decide) (Or.inr rfl),
    (gitPush_retry_protocol_spec .failed .failed .failed [] [] [] false).2.2.2.1
      (by decide) (Or.inr rfl),
    (gitPush_retry_protocol_spec .failed .failed .ok [] [] [] false).2.2.2.2.2
      (by decide)⟩

/-! ### Path-layout helpers (C8) -/

/-- Kubernetes DNS-subdomain characters (legal for names, namespaces and
groups): lowercase alphanumerics, `-` and `.`. -/
def isDnsChar (c : Char) : Bool :=
  c.isLower || c.isDigit || c = '-' || c = '.'

/-- Lowercase alphanumeric characters (legal for versions and lowercased
kinds). -/
def isLowerAlnum (c : Char) : Bool :=
  c.isLower || c.isDigit

/-- A character falsifying a predicate that holds on a whole string is not in
the string. -/
theorem notMem_of_forall_pred {l : GoStr} {p : Char → Bool} (h : ∀ c ∈ l, p c = true)
    {x : Char} (hx : p x = false) : x ∉ l := by
  intro hmem
  rw [h x hmem] at hx
  exact absurd hx (by decide)

/-- Splitting a concatenation at a separator character absent from both left
parts. -/
theorem append_cons_inj {α : Type} {c : α} :
    ∀ (a a' b b' : List α), c ∉ a → c ∉ a' → a ++ c :: b = a' ++ c :: b' → a = a' ∧ b = b' := by
  intro a
  induction a with
  | nil =>
    intro a' b b' _ ha' h
    cases a' with
    | nil => simpa using h
    | cons x t =>
      simp only [List.nil_append, List.cons_append, List.cons.injEq] at h
      rw [h.1] at ha'
      exact absurd (List.mem_cons_self x t) ha'
  | cons x t ih =>
    intro a' b b' ha ha' h
    cases a' with
    | nil =>
      simp only [List.cons_append, List.nil_append, List.cons.injEq] at h
      rw [← h.1] at ha
      exact absurd (List.mem_cons_self x t) ha
    | cons y s =>
      simp only [List.cons_append, List.cons.injEq] at h
      obtain ⟨h1, h2⟩ := h
      obtain ⟨he, hb⟩ := ih s b b' (fun hc => ha (List.mem_cons_of_mem _ hc))
        (fun hc => ha' (List.mem_cons_of_mem _ hc)) h2
      exact ⟨by rw [h1, he], hb⟩

/-- The last element of a list extended on the left. -/
theorem getLast?_append_cons {α : Type} (a : List α) (c : α) (b : List α) (hb : b ≠ []) :
    (a ++ c :: b).getLast? = b.getLast? := by
  rw [show a ++ c :: b = (a ++ [c]) ++ b by simp, List.getLast?_append_of_ne_nil _ hb]

/-- Trimming a suffix yields a subset. -/
theorem trimSuffixChar_subset (c : Char) (s : GoStr) : trimSuffixChar c s ⊆ s := by
  unfold trimSuffixChar
  split
  · exact List.dropLast_subset s
  · exact fun _ h => h

/-- Unfolding of the suppressed GVK string as a trim. -/
theorem gvkToString_true_eq (g : GVK) :
    gvkToString g true
      = trimSuffixChar '.' (toLowerStr g.kind ++ ('.' :: (g.version ++ ('.' :: g.group)))) :=
  rfl

/-- Members of the GVK string come from the lowercased kind, the version,
the group, or are the separating dots. -/
theorem mem_gvkToString {g : GVK} {c : Char} (h : c ∈ gvkToString g true) :
    c ∈ toLowerStr g.kind ∨ c = '.' ∨ c ∈ g.version ∨ c ∈ g.group := by
  rw [gvkToString_true_eq] at h
  have hsub := trimSuffixChar_subset '.'
    (toLowerStr g.kind ++ ('.' :: (g.version ++ ('.' :: g.group)))) h
  simp only [List.mem_append, List.mem_cons] at hsub
  tauto

/-- Trimming the character just appended. -/
theorem trimSuffixChar_concat (c : Char) (l : GoStr) : trimSuffixChar c (l ++ [c]) = l := by
  unfold trimSuffixChar hasSuffixChar
  rw [List.getLast?_concat]
  simp [List.dropLast_concat]

/-- With an empty group the GVK string is `<lowercase-kind>.<version>`: the
trailing dot is trimmed. -/
theorem gvkToString_group_nil (g : GVK) (hg : g.group = []) :
    gvkToString g true = toLowerStr g.kind ++ ('.' :: g.version) := by
  rw [gvkToString_true_eq, hg,
    show toLowerStr g.kind ++ ('.' :: (g.version ++ ('.' :: [])))
      = (toLowerStr g.kind ++ ('.' :: g.version)) ++ ['.'] by simp,
    trimSuffixChar_concat]

/-- With a non-empty group that does not end in a dot, the GVK string is the
untrimmed `<lowercase-kind>.<version>.<group>`. -/
theorem gvkToString_group_ne (g : GVK) (hg : g.group ≠ [])
    (hgd : hasSuffixChar '.' g.group = false) :
    gvkToString g true = toLowerStr g.kind ++ ('.' :: (g.version ++ ('.' :: g.group))) := by
  have hlast : (toLowerStr g.kind ++ ('.' :: (g.version ++ ('.' :: g.group)))).getLast?
      = g.group.getLast? := by
    rw [getLast?_append_cons _ _ _ (by simp), getLast?_append_cons _ _ _ hg]
  have hcond : hasSuffixChar '.'
      (toLowerStr g.kind ++ ('.' :: (g.version ++ ('.' :: g.group)))) = false := by
    simp only [hasSuffixChar, hlast]
    simpa [hasSuffixChar] using hgd
  rw [gvkToString_true_eq]
  unfold trimSuffixChar
  rw [hcond]
  simp

/-- Joining with a non-empty tail of elements. -/
theorem joinIntercalate_append :
    ∀ (q x : List GoStr), x ≠ [] →
      joinIntercalate (q ++ x)
        = if q = [] then joinIntercalate x
          else joinIntercalate q ++ ('/' :: joinIntercalate x)
  | [], x, _ => by simp
  | [q], x, hx => by
    cases x with
    | nil => exact absurd rfl hx
    | cons y ys => simp [joinIntercalate]
  | q :: q' :: t, x, hx => by
    have ih := joinIntercalate_append (q' :: t) x hx
    have h1 : (q :: q' :: t) ++ x = q :: ((q' :: t) ++ x) := by simp
    rw [h1]
    have h2 : (q' :: t) ++ x = q' :: (t ++ x) := by simp
    have h3 : joinIntercalate (q :: ((q' :: t) ++ x))
        = q ++ ('/' :: joinIntercalate ((q' :: t) ++ x)) := by
      rw [h2]
      cases ht : t ++ x with
      | nil =>
        cases t <;> cases x <;> simp_all
      | cons z zs => simp [joinIntercalate]
    rw [h3, ih]
    simp [joinIntercalate, List.append_assoc]


/-- The filename produced by the default configuration:
`<gvk-string>_<name>.yaml`. -/
def fnameDefault (gvk : GVK) (n : GoStr) : GoStr :=
  gvkToString gvk true ++ ('_' :: (n ++ ".yaml".toList))

/-- Normal form of the default-configuration resource path: the non-empty
elements of `[root, subPath]`, then (for a namespaced resource) the prefixed
namespace directory, then the filename, joined with `/`. -/
theorem getResourceFilepath_default_eq (root sub n ns : GoStr) (gvk : GVK) :
    (getResourceFilepath (defaultFspConfig root) n ns gvk sub).1
      = joinIntercalate (([root, sub].filter (fun p => ¬ p = []))
          ++ (if ns = [] then [fnameDefault gvk n]
              else ["ns_".toList ++ ns, fnameDefault gvk n])) := by
  have hfne : ¬ fnameDefault gvk n = [] := by
    unfold fnameDefault
    simp
  have hfd : gvkToString gvk true ++ "_".toList ++ n ++ ('.' :: "yaml".toList)
      = fnameDefault gvk n := by
    unfold fnameDefault
    simp [List.append_assoc]
  unfold getResourceFilepath defaultFspConfig goJoin
  simp only
  have hpe : (if ¬ ("yaml".toList : GoStr) = [] ∧ ¬ hasPrefChar '.' "yaml".toList = true
      then '.' :: "yaml".toList else "yaml".toList) = '.' :: "yaml".toList := by decide
  rw [hpe, hfd]
  by_cases hns : ns = []
  · subst hns
    simp only [if_pos trivial]
    rw [show ([root, sub, [], fnameDefault gvk n] : List GoStr)
        = [root, sub] ++ [[], fnameDefault gvk n] from rfl, List.filter_append]
    simp [hfne]
  · simp only [if_neg hns]
    have hpne : ¬ ("ns_".toList ++ ns) = [] := by simp
    rw [show ([root, sub, "ns_".toList ++ ns, fnameDefault gvk n] : List GoStr)
        = [root, sub] ++ ["ns_".toList ++ ns, fnameDefault gvk n] from rfl, List.filter_append]
    simp [hfne, hpne]


/-- Lowercase alphanumerics are DNS characters. -/
theorem isDnsChar_of_isLowerAlnum {c : Char} (h : isLowerAlnum c = true) : isDnsChar c = true := by
  simp [isLowerAlnum, isDnsChar] at h ⊢
  tauto

/-- Under the identifier charsets, every character of the GVK string is a DNS character. -/
theorem gvkString_dns {g : GVK} (hk : ∀ c ∈ toLowerStr g.kind, isLowerAlnum c = true)
    (hv : ∀ c ∈ g.version, isLowerAlnum c = true) (hg : ∀ c ∈ g.group, isDnsChar c = true) :
    ∀ c ∈ gvkToString g true, isDnsChar c = true := by
  intro c hc
  rcases mem_gvkToString hc with h | h | h | h
  · exact isDnsChar_of_isLowerAlnum (hk c h)
  · subst h; decide
  · exact isDnsChar_of_isLowerAlnum (hv c h)
  · exact hg c h

/-- No slash occurs in a default-config filename built from DNS identifiers. -/
theorem slash_not_mem_fname {g : GVK} {n : GoStr}
    (hdns : ∀ c ∈ gvkToString g true, isDnsChar c = true)
    (hn : ∀ c ∈ n, isDnsChar c = true) : '/' ∉ fnameDefault g n := by
  intro hm
  unfold fnameDefault at hm
  rcases List.mem_append.mp hm with h | h
  · exact absurd (hdns '/' h) (by decide)
  · rcases List.mem_cons.mp h with h | h
    · exact absurd h (by decide)
    · rcases List.mem_append.mp h with h | h
      · exact absurd (hn '/' h) (by decide)
      · exact absurd h (by decide)

/-- C8, counterexample: the path mapping lowercases the kind, so the two
distinct tuples that differ only in the kind's case - `Dummy` versus
`dummy` - map to the same path, contradicting the claim that two distinct
`(namespace, GVK, name)` tuples never collide. -/
theorem getResourceFilepath_kind_case_collision :
    (getResourceFilepath (defaultFspConfig "/r".toList) "n".toList "ns1".toList
        ⟨"g".toList, "v1".toList, "Dummy".toList⟩ "s".toList).1
      = (getResourceFilepath (defaultFspConfig "/r".toList) "n".toList "ns1".toList
          ⟨"g".toList, "v1".toList, "dummy".toList⟩ "s".toList).1 ∧
    (⟨"g".toList, "v1".toList, "Dummy".toList⟩ : GVK)
      ≠ ⟨"g".toList, "v1".toList, "dummy".toList⟩ := by
  decide

/-- C8, amended: with the default configuration (`ns_` namespace directory
prefix, `_` separator, `yaml` extension) and a fixed `(root, subPath)`, the
path is a pure function of `(name, namespace, GVK)`: cluster-scoped
resources land directly under `root/subPath`, namespaced ones under
`root/subPath/ns_<namespace>/`, with filename
`<lowercase-kind>.<version>.<group>` (one trailing dot trimmed when the
group is empty) + `_` + name + `.yaml`; and for identifiers drawn from the
Kubernetes-legal character sets (names/namespaces/groups from lowercase
alphanumerics, `-`, `.`, groups not ending in a dot; versions and lowercased
kinds alphanumeric), two tuples that are distinct AFTER lowercasing the kind
never map to the same path. -/
theorem getResourceFilepath_layout_and_injective
    (root sub n1 n2 ns1 ns2 : GoStr) (g1 g2 : GVK)
    (hn1 : ∀ c ∈ n1, isDnsChar c = true) (hn2 : ∀ c ∈ n2, isDnsChar c = true)
    (hns1 : ∀ c ∈ ns1, isDnsChar c = true) (hns2 : ∀ c ∈ ns2, isDnsChar c = true)
    (hv1 : ∀ c ∈ g1.version, isLowerAlnum c = true)
    (hv2 : ∀ c ∈ g2.version, isLowerAlnum c = true)
    (hk1 : ∀ c ∈ toLowerStr g1.kind, isLowerAlnum c = true)
    (hk2 : ∀ c ∈ toLowerStr g2.kind, isLowerAlnum c = true)
    (hg1 : ∀ c ∈ g1.group, isDnsChar c = true) (hg2 : ∀ c ∈ g2.group, isDnsChar c = true)
    (hd1 : hasSuffixChar '.' g1.group = false) (hd2 : hasSuffixChar '.' g2.group = false) :
    ((getResourceFilepath (defaultFspConfig root) n1 [] g1 sub).1
        = goJoin [root, sub, fnameDefault g1 n1]) ∧
    (ns1 ≠ [] → (getResourceFilepath (defaultFspConfig root) n1 ns1 g1 sub).1
        = goJoin [root, sub, "ns_".toList ++ ns1, fnameDefault g1 n1]) ∧
    ((getResourceFilepath (defaultFspConfig root) n1 ns1 g1 sub).1
        = (getResourceFilepath (defaultFspConfig root) n2 ns2 g2 sub).1 →
      ns1 = ns2 ∧ n1 = n2 ∧ g1.group = g2.group ∧ g1.version = g2.version ∧
        toLowerStr g1.kind = toLowerStr g2.kind) := by
  have hdns1 := gvkString_dns hk1 hv1 hg1
  have hdns2 := gvkString_dns hk2 hv2 hg2
  refine ⟨?_, ?_, ?_⟩
  · rw [getResourceFilepath_default_eq]
    have hfne : ¬ fnameDefault g1 n1 = [] := by unfold fnameDefault; simp
    rw [goJoin, show ([root, sub, fnameDefault g1 n1] : List GoStr)
        = [root, sub] ++ [fnameDefault g1 n1] from rfl, List.filter_append]
    simp [hfne]
  · intro hns
    rw [getResourceFilepath_default_eq]
    have hfne : ¬ fnameDefault g1 n1 = [] := by unfold fnameDefault; simp
    have hpne : ¬ ("ns_".toList ++ ns1) = [] := by simp
    rw [goJoin, show ([root, sub, "ns_".toList ++ ns1, fnameDefault g1 n1] : List GoStr)
        = [root, sub] ++ ["ns_".toList ++ ns1, fnameDefault g1 n1] from rfl, List.filter_append]
    simp [hfne, hpne, hns]
  · intro hpath
    rw [getResourceFilepath_default_eq, getResourceFilepath_default_eq] at hpath
    have hX1ne : (if ns1 = [] then [fnameDefault g1 n1]
        else ["ns_".toList ++ ns1, fnameDefault g1 n1]) ≠ [] := by
      by_cases h : ns1 = [] <;> simp [h]
    have hX2ne : (if ns2 = [] then [fnameDefault g2 n2]
        else ["ns_".toList ++ ns2, fnameDefault g2 n2]) ≠ [] := by
      by_cases h : ns2 = [] <;> simp [h]
    rw [joinIntercalate_append _ _ hX1ne, joinIntercalate_append _ _ hX2ne] at hpath
    have hXX : joinIntercalate (if ns1 = [] then [fnameDefault g1 n1]
          else ["ns_".toList ++ ns1, fnameDefault g1 n1])
        = joinIntercalate (if ns2 = [] then [fnameDefault g2 n2]
          else ["ns_".toList ++ ns2, fnameDefault g2 n2]) := by
      by_cases hQe : ([root, sub].filter (fun p => ¬ p = [])) = []
      · rw [if_pos hQe, if_pos hQe] at hpath
        exact hpath
      · rw [if_neg hQe, if_neg hQe] at hpath
        have h2 := List.append_cancel_left hpath
        injection h2
    have hsf1 : '/' ∉ fnameDefault g1 n1 := slash_not_mem_fname hdns1 hn1
    have hsf2 : '/' ∉ fnameDefault g2 n2 := slash_not_mem_fname hdns2 hn2
    have hsn1 : '/' ∉ "ns_".toList ++ ns1 := by
      intro hm
      rcases List.mem_append.mp hm with h | h
      · exact absurd h (by decide)
      · exact absurd (hns1 '/' h) (by decide)
    have hsn2 : '/' ∉ "ns_".toList ++ ns2 := by
      intro hm
      rcases List.mem_append.mp hm with h | h
      · exact absurd h (by decide)
      · exact absurd (hns2 '/' h) (by decide)
    have hFns : fnameDefault g1 n1 = fnameDefault g2 n2 ∧ ns1 = ns2 := by
      by_cases h1 : ns1 = [] <;> by_cases h2 : ns2 = []
      · refine ⟨?_, by rw [h1, h2]⟩
        simpa [h1, h2, joinIntercalate] using hXX
      · exfalso
        rw [if_pos h1, if_neg h2] at hXX
        have e2 : joinIntercalate ["ns_".toList ++ ns2, fnameDefault g2 n2]
            = ("ns_".toList ++ ns2) ++ ('/' :: fnameDefault g2 n2) := rfl
        rw [e2] at hXX
        have hsl : '/' ∈ joinIntercalate [fnameDefault g1 n1] := by
          rw [hXX]
          exact List.mem_append_right _ (List.mem_cons_self _ _)
        exact hsf1 hsl
      · exfalso
        rw [if_neg h1, if_pos h2] at hXX
        have e1 : joinIntercalate ["ns_".toList ++ ns1, fnameDefault g1 n1]
            = ("ns_".toList ++ ns1) ++ ('/' :: fnameDefault g1 n1) := rfl
        rw [e1] at hXX
        have hsl : '/' ∈ joinIntercalate [fnameDefault g2 n2] := by
          rw [← hXX]
          exact List.mem_append_right _ (List.mem_cons_self _ _)
        exact hsf2 hsl
      · rw [if_neg h1, if_neg h2] at hXX
        have e1 : joinIntercalate ["ns_".toList ++ ns1, fnameDefault g1 n1]
            = ("ns_".toList ++ ns1) ++ ('/' :: fnameDefault g1 n1) := rfl
        have e2 : joinIntercalate ["ns_".toList ++ ns2, fnameDefault g2 n2]
            = ("ns_".toList ++ ns2) ++ ('/' :: fnameDefault g2 n2) := rfl
        rw [e1, e2] at hXX
        obtain ⟨hN, hF⟩ := append_cons_inj _ _ _ _ hsn1 hsn2 hXX
        exact ⟨hF, List.append_cancel_left hN⟩
    obtain ⟨hFeq, hnseq⟩ := hFns
    have hu1 : '_' ∉ gvkToString g1 true := notMem_of_forall_pred hdns1 (by decide)
    have hu2 : '_' ∉ gvkToString g2 true := notMem_of_forall_pred hdns2 (by decide)
    unfold fnameDefault at hFeq
    obtain ⟨hG, hne⟩ := append_cons_inj _ _ _ _ hu1 hu2 hFeq
    have hn : n1 = n2 := List.append_cancel_right hne
    have hdotk1 : '.' ∉ toLowerStr g1.kind := notMem_of_forall_pred hk1 (by decide)
    have hdotk2 : '.' ∉ toLowerStr g2.kind := notMem_of_forall_pred hk2 (by decide)
    have hdotv1 : '.' ∉ g1.version := notMem_of_forall_pred hv1 (by decide)
    have hdotv2 : '.' ∉ g2.version := notMem_of_forall_pred hv2 (by decide)
    have hgvk : g1.group = g2.group ∧ g1.version = g2.version ∧
        toLowerStr g1.kind = toLowerStr g2.kind := by
      by_cases e1 : g1.group = [] <;> by_cases e2 : g2.group = []
      · rw [gvkToString_group_nil g1 e1, gvkToString_group_nil g2 e2] at hG
        obtain ⟨hk, hv⟩ := append_cons_inj _ _ _ _ hdotk1 hdotk2 hG
        exact ⟨e1.trans e2.symm, hv, hk⟩
      · exfalso
        rw [gvkToString_group_nil g1 e1, gvkToString_group_ne g2 e2 hd2] at hG
        obtain ⟨hk, hv⟩ := append_cons_inj _ _ _ _ hdotk1 hdotk2 hG
        have : '.' ∈ g1.version := by
          rw [hv]
          exact List.mem_append_right _ (List.mem_cons_self _ _)
        exact absurd (hv1 '.' this) (by decide)
      · exfalso
        rw [gvkToString_group_ne g1 e1 hd1, gvkToString_group_nil g2 e2] at hG
        obtain ⟨hk, hv⟩ := append_cons_inj _ _ _ _ hdotk1 hdotk2 hG
        have : '.' ∈ g2.version := by
          rw [← hv]
          exact List.mem_append_right _ (List.mem_cons_self _ _)
        exact absurd (hv2 '.' this) (by decide)
      · rw [gvkToString_group_ne g1 e1 hd1, gvkToString_group_ne g2 e2 hd2] at hG
        obtain ⟨hk, hrest⟩ := append_cons_inj _ _ _ _ hdotk1 hdotk2 hG
        obtain ⟨hv, hgr⟩ := append_cons_inj _ _ _ _ hdotv1 hdotv2 hrest
        exact ⟨hgr, hv, hk⟩
    exact ⟨hnseq, hn, hgvk⟩

/-- C8, witness: the layout equations at a concrete resource, and the
injectivity conclusion at equal concrete tuples. -/
theorem getResourceFilepath_layout_and_injective_witness :
    (getResourceFilepath (defaultFspConfig "/r".toList) "a".toList []
        ⟨"g".toList, "v1".toList, "pod".toList⟩ "s".toList).1
      = goJoin ["/r".toList, "s".toList,
          fnameDefault ⟨"g".toList, "v1".toList, "pod".toList⟩ "a".toList] ∧
    (getResourceFilepath (defaultFspConfig "/r".toList) "a".toList "w".toList
        ⟨"g".toList, "v1".toList, "pod".toList⟩ "s".toList).1
      = goJoin ["/r".toList, "s".toList, "ns_".toList ++ "w".toList,
          fnameDefault ⟨"g".toList, "v1".toList, "pod".toList⟩ "a".toList] ∧
    (("w".toList : GoStr) = "w".toList ∧ ("a".toList : GoStr) = "a".toList ∧
      ("g".toList : GoStr) = "g".toList ∧ ("v1".toList : GoStr) = "v1".toList ∧
      toLowerStr "pod".toList = toLowerStr "pod".toList) := by
  have T := getResourceFilepath_layout_and_injective "/r".toList "s".toList
    "a".toList "a".toList "w".toList "w".toList
    ⟨"g".toList, "v1".toList, "pod".toList⟩ ⟨"g".toList, "v1".toList, "pod".toList⟩
    (by decide) (by decide) (by decide) (by decide) (by decide) (by decide)
    (by decide) (by decide) (by decide) (by decide) (by decide) (by decide)
  exact ⟨T.1, T.2.1 (by decide), T.2.2 rfl⟩

end K8Syncer
